import Mathlib

/-!
Verification of the persistence and orchestration layer of the Yahoo
Sender Hub scraper (`yahoo_persistent_enhanced_complete.py`).

The Python source is shallowly embedded: dictionaries with optional keys
become structures with `Option` fields, SQL tables become lists of rows,
Python float arithmetic is modelled over `ℚ`, and wall-clock instants are
passed in explicitly as parameters.
-/

namespace YahooScraper

/-- The statistics dictionary produced by one extraction, as consumed by
`DatabaseManager.save_domain_stats` and `FileManager.save_domain_json`.
Every field read through `dict.get` with no default is an `Option`;
`verified` defaults to `False` and `has_data` defaults to `True` at the
use sites, which is modelled by `Option.getD` there.  `domain` is the key
field and is taken to be present (the valid-key assumption of the spec). -/
structure Stats where
  domain : String
  status : Option String
  verified : Option Bool
  added_date : Option String
  timestamp : Option String
  delivered_count : Option Int
  delivered_percentage : Option String
  complaint_rate : Option ℚ
  complaint_percentage : Option String
  complaint_trend : Option String
  time_range : Option String
  insights_data : Option String
  screenshot_path : Option String
  has_data : Option Bool
deriving DecidableEq, Repr

/-- The `aggregated_metrics` object computed by
`FileManager.calculate_aggregated_metrics`. -/
structure AggMetrics where
  average_delivered : ℚ
  average_complaint_rate : ℚ
  verified_accounts : Nat
  accounts_with_data : Nat
  total_accounts : Nat
deriving DecidableEq, Repr

/-- Embedding of `FileManager.calculate_aggregated_metrics` (source lines
678-713) applied to the `accounts` map of a snapshot document, modelled
as an association list in insertion order.  A metric that is absent from
an account record (`None` in Python) is skipped; `verified` is counted by
Python truthiness (`if data.get('verified')`); `has_data` is counted with
default `True` (`data.get('has_data', True)`). -/
def calculate_aggregated_metrics (accounts : List (String × Stats)) : AggMetrics :=
  let delivered_counts := accounts.filterMap (fun p => p.2.delivered_count)
  let complaint_rates := accounts.filterMap (fun p => p.2.complaint_rate)
  let verified_count := accounts.countP (fun p => p.2.verified.getD false)
  let has_data_count := accounts.countP (fun p => p.2.has_data.getD true)
  { average_delivered :=
      if delivered_counts.isEmpty then 0
      else (delivered_counts.map (Int.cast : Int → ℚ)).sum / (delivered_counts.length : ℚ)
    average_complaint_rate :=
      if complaint_rates.isEmpty then 0
      else complaint_rates.sum / (complaint_rates.length : ℚ)
    verified_accounts := verified_count
    accounts_with_data := has_data_count
    total_accounts := accounts.length }

/-- Auxiliary: the number of elements mapped to `some` by `f` is the
length of the `filterMap`. -/
lemma length_filterMap_eq_countP {α β : Type} (g : α → Option β) (l : List α) :
    (l.filterMap g).length = l.countP (fun a => (g a).isSome) := by
  induction l with
  | nil => rfl
  | cons x xs ih =>
    cases hx : g x <;>
      simp [List.filterMap_cons, List.countP_cons, hx, ih]

/-- C2: for a snapshot document with at least one contribution,
`calculate_aggregated_metrics` gives the arithmetic mean of each metric
over exactly the contributing accounts whose record contains that metric,
the counts of `verified = true` and `has_data = true` contributors, and
`total_accounts` equal to the number of contributions; consequently
`verified_accounts ≤ total_accounts`.  The has_data count is stated under
the data-model invariant that every StatRecord carries a `has_data`
boolean (the source defaults an absent key to `True`). -/
theorem calculate_aggregated_metrics_correct
    (accounts : List (String × Stats))
    (hne : accounts ≠ [])
    (hhd : ∀ p ∈ accounts, (p.2.has_data).isSome) :
    (calculate_aggregated_metrics accounts).total_accounts = accounts.length ∧
    (calculate_aggregated_metrics accounts).verified_accounts
      = accounts.countP (fun p => decide (p.2.verified = some true)) ∧
    (calculate_aggregated_metrics accounts).accounts_with_data
      = accounts.countP (fun p => decide (p.2.has_data = some true)) ∧
    (calculate_aggregated_metrics accounts).verified_accounts
      ≤ (calculate_aggregated_metrics accounts).total_accounts ∧
    ((∃ p ∈ accounts, (p.2.delivered_count).isSome) →
      (calculate_aggregated_metrics accounts).average_delivered
        = ((accounts.filterMap (fun p => p.2.delivered_count)).map (Int.cast : Int → ℚ)).sum
            / (accounts.countP (fun p => (p.2.delivered_count).isSome) : ℚ)) ∧
    ((∃ p ∈ accounts, (p.2.complaint_rate).isSome) →
      (calculate_aggregated_metrics accounts).average_complaint_rate
        = (accounts.filterMap (fun p => p.2.complaint_rate)).sum
            / (accounts.countP (fun p => (p.2.complaint_rate).isSome) : ℚ)) := by
  refine ⟨rfl, ?_, ?_, ?_, ?_, ?_⟩
  · unfold calculate_aggregated_metrics
    apply List.countP_congr
    intro p _
    cases hv : p.2.verified with
    | none => simp [hv]
    | some b => cases b <;> simp [hv]
  · unfold calculate_aggregated_metrics
    apply List.countP_congr
    intro p hp
    rcases Option.isSome_iff_exists.mp (hhd p hp) with ⟨b, hb⟩
    cases b <;> simp [hb]
  · exact List.countP_le_length _
  · intro hex
    have hne' : accounts.filterMap (fun p => p.2.delivered_count) ≠ [] := by
      rcases hex with ⟨p, hp, hps⟩
      rcases Option.isSome_iff_exists.mp hps with ⟨v, hv⟩
      intro hnil
      have : v ∈ accounts.filterMap (fun p => p.2.delivered_count) :=
        List.mem_filterMap.mpr ⟨p, hp, hv⟩
      simp [hnil] at this
    unfold calculate_aggregated_metrics
    rw [← length_filterMap_eq_countP]
    simp [List.isEmpty_iff, hne']
  · intro hex
    have hne' : accounts.filterMap (fun p => p.2.complaint_rate) ≠ [] := by
      rcases hex with ⟨p, hp, hps⟩
      rcases Option.isSome_iff_exists.mp hps with ⟨v, hv⟩
      intro hnil
      have : v ∈ accounts.filterMap (fun p => p.2.complaint_rate) :=
        List.mem_filterMap.mpr ⟨p, hp, hv⟩
      simp [hnil] at this
    unfold calculate_aggregated_metrics
    rw [← length_filterMap_eq_countP]
    simp [List.isEmpty_iff, hne']

/-- A concrete extraction record used to instantiate theorems with
hypotheses: account contributing delivered_count 100, verified. -/
def demoStatsA : Stats :=
  { domain := "x.com", status := some "active", verified := some true,
    added_date := none, timestamp := some "2024-01-01T00:00:00",
    delivered_count := some 100, delivered_percentage := none,
    complaint_rate := none, complaint_percentage := none,
    complaint_trend := none, time_range := none, insights_data := none,
    screenshot_path := none, has_data := some true }

/-- A second concrete extraction record: delivered_count 200, not
verified. -/
def demoStatsB : Stats :=
  { domain := "x.com", status := some "active", verified := some false,
    added_date := none, timestamp := some "2024-01-01T01:00:00",
    delivered_count := some 200, delivered_percentage := none,
    complaint_rate := none, complaint_percentage := none,
    complaint_trend := none, time_range := none, insights_data := none,
    screenshot_path := none, has_data := some true }

/-- A two-account contribution map for witnesses. -/
def demoAccounts : List (String × Stats) :=
  [("a@x", demoStatsA), ("b@x", demoStatsB)]

/-- Witness for C2 at a concrete two-contribution document. -/
theorem calculate_aggregated_metrics_correct_witness :
    (calculate_aggregated_metrics demoAccounts).total_accounts = demoAccounts.length ∧
    (calculate_aggregated_metrics demoAccounts).verified_accounts
      = demoAccounts.countP (fun p => decide (p.2.verified = some true)) :=
  ⟨(calculate_aggregated_metrics_correct demoAccounts (by decide) (by decide)).1,
   (calculate_aggregated_metrics_correct demoAccounts (by decide) (by decide)).2.1⟩

/-- The per-entity snapshot JSON document written by
`FileManager.save_domain_json`.  The `accounts` object is an association
list in Python dict insertion order. -/
structure Document where
  domain : String
  accounts : List (String × Stats)
  latest_data : Option Stats
  total_accounts : Nat
  last_updated : Nat
  aggregated_metrics : Option AggMetrics
deriving DecidableEq, Repr

/-- The default document obtained when no JSON file exists yet
(`existing_data = {}` followed by the two key-defaulting steps). -/
def emptyDocument (domain : String) : Document :=
  { domain := domain, accounts := [], latest_data := none,
    total_accounts := 0, last_updated := 0, aggregated_metrics := none }

/-- Python dict assignment `accounts[email] = c`: an existing key keeps
its position and gets the new value, a new key is appended. -/
def upsertAccount (accounts : List (String × Stats)) (email : String)
    (c : Stats) : List (String × Stats) :=
  if email ∈ accounts.map Prod.fst then
    accounts.map (fun p => if p.1 = email then (email, c) else p)
  else
    accounts ++ [(email, c)]

/-- Embedding of `FileManager.save_domain_json` (source lines 636-676)
acting on an already-loaded document: overwrite the account contribution,
refresh `latest_data`, `total_accounts` and `last_updated`, and recompute
`aggregated_metrics` synchronously (the source recomputation is skipped
when the accounts map is empty, which cannot occur after the upsert). -/
def save_domain_json (doc : Document) (account_email : String)
    (stats : Stats) (now : Nat) : Document :=
  let accounts := upsertAccount doc.accounts account_email stats
  { doc with
    accounts := accounts
    latest_data := some stats
    total_accounts := accounts.length
    last_updated := now
    aggregated_metrics :=
      if accounts.isEmpty then doc.aggregated_metrics
      else some (calculate_aggregated_metrics accounts) }

/-- One arrival: contributing account, its record, the arrival time. -/
structure Arrival where
  account_email : String
  stats : Stats
  now : Nat
deriving DecidableEq, Repr

/-- The contribution carried by an arrival, forgetting the arrival time. -/
def Arrival.contrib (x : Arrival) : String × Stats := (x.account_email, x.stats)

/-- Sequential application of `save_domain_json` merges to one entity,
starting from an absent file. -/
def mergeAll (domain : String) (l : List Arrival) : Document :=
  l.foldl (fun d x => save_domain_json d x.account_email x.stats x.now)
    (emptyDocument domain)

lemma upsertAccount_ne_nil (accounts : List (String × Stats))
    (email : String) (c : Stats) : upsertAccount accounts email c ≠ [] := by
  unfold upsertAccount
  split
  · rename_i hmem
    intro hnil
    rw [List.map_eq_nil_iff] at hnil
    rw [hnil] at hmem
    simp at hmem
  · simp

lemma upsertAccount_not_mem (accounts : List (String × Stats))
    (email : String) (c : Stats) (h : email ∉ accounts.map Prod.fst) :
    upsertAccount accounts email c = accounts ++ [(email, c)] := by
  unfold upsertAccount
  exact if_neg h

lemma foldl_upsertAccount_append (l : List Arrival) :
    ∀ acc : List (String × Stats),
      (∀ x ∈ l, x.account_email ∉ acc.map Prod.fst) →
      (l.map Arrival.account_email).Nodup →
      l.foldl (fun a x => upsertAccount a x.account_email x.stats) acc
        = acc ++ l.map Arrival.contrib := by
  induction l with
  | nil => intro acc _ _; simp
  | cons x xs ih =>
    intro acc hdisj hnd
    rw [List.map_cons, List.nodup_cons] at hnd
    have hx : x.account_email ∉ acc.map Prod.fst := hdisj x (by simp)
    rw [List.foldl_cons, upsertAccount_not_mem acc _ _ hx]
    rw [ih (acc ++ [(x.account_email, x.stats)]) ?_ hnd.2]
    · simp [Arrival.contrib]
    · intro y hy
      simp only [List.map_append, List.mem_append, List.map_cons]
      rintro (hmem | hmem)
      · exact hdisj y (by simp [hy]) hmem
      · simp only [List.map_nil, List.mem_cons, List.not_mem_nil, or_false] at hmem
        exact hnd.1 (hmem ▸ List.mem_map.mpr ⟨y, hy, rfl⟩)

lemma foldl_save_accounts (l : List Arrival) :
    ∀ d : Document,
      (l.foldl (fun d x => save_domain_json d x.account_email x.stats x.now) d).accounts
        = l.foldl (fun a x => upsertAccount a x.account_email x.stats) d.accounts := by
  induction l with
  | nil => intro d; rfl
  | cons x xs ih =>
    intro d
    rw [List.foldl_cons, List.foldl_cons, ih]
    rfl

lemma mergeAll_accounts_eq (domain : String) (l : List Arrival)
    (hnd : (l.map Arrival.account_email).Nodup) :
    (mergeAll domain l).accounts = l.map Arrival.contrib := by
  rw [mergeAll, foldl_save_accounts]
  simpa using foldl_upsertAccount_append l [] (by simp) hnd

lemma mergeAll_aggregated (domain : String) (l : List Arrival) (h : l ≠ []) :
    (mergeAll domain l).aggregated_metrics
      = some (calculate_aggregated_metrics (mergeAll domain l).accounts) := by
  unfold mergeAll
  suffices hgen : ∀ (d : Document), l ≠ [] →
      (l.foldl (fun d x => save_domain_json d x.account_email x.stats x.now) d).aggregated_metrics
        = some (calculate_aggregated_metrics
            ((l.foldl (fun d x => save_domain_json d x.account_email x.stats x.now) d).accounts)) by
    exact hgen _ h
  clear h
  induction l with
  | nil => intro _ h; exact absurd rfl h
  | cons x xs ih =>
    intro d _
    rw [List.foldl_cons]
    cases hxs : xs with
    | nil =>
      simp only [List.foldl_nil]
      show (save_domain_json d x.account_email x.stats x.now).aggregated_metrics = _
      unfold save_domain_json
      have hne := upsertAccount_ne_nil d.accounts x.account_email x.stats
      simp [List.isEmpty_iff, hne]
    | cons y ys =>
      rw [← hxs]
      exact ih _ (by simp [hxs])

lemma isEmpty_eq_of_length_eq {α β : Type} {a : List α} {b : List β}
    (h : a.length = b.length) : a.isEmpty = b.isEmpty := by
  cases a <;> cases b <;> simp_all

lemma calculate_aggregated_metrics_perm
    {l₁ l₂ : List (String × Stats)} (h : l₁.Perm l₂) :
    calculate_aggregated_metrics l₁ = calculate_aggregated_metrics l₂ := by
  have hdel := h.filterMap (fun p => p.2.delivered_count)
  have hcomp := h.filterMap (fun p => p.2.complaint_rate)
  simp only [calculate_aggregated_metrics]
  rw [AggMetrics.mk.injEq]
  refine ⟨?_, ?_, ?_, ?_, ?_⟩
  · rw [isEmpty_eq_of_length_eq hdel.length_eq,
      (hdel.map (Int.cast : Int → ℚ)).sum_eq, hdel.length_eq]
  · rw [isEmpty_eq_of_length_eq hcomp.length_eq, hcomp.sum_eq, hcomp.length_eq]
  · exact h.countP_eq _
  · exact h.countP_eq _
  · exact h.length_eq

/-- C4: the snapshot merge is commutative in outcome for contributions
from distinct accounts: applying `save_domain_json` merges in any arrival
order (and at any arrival times) yields the same final
`aggregated_metrics` — the result depends only on the set of latest
per-account contributions. -/
theorem save_domain_json_merge_commutative
    (domain : String) (l₁ l₂ : List Arrival)
    (hperm : (l₁.map Arrival.contrib).Perm (l₂.map Arrival.contrib))
    (hnd : (l₁.map Arrival.account_email).Nodup) :
    (mergeAll domain l₁).aggregated_metrics
      = (mergeAll domain l₂).aggregated_metrics := by
  have hkeys : ∀ m : List Arrival,
      m.map Arrival.account_email = (m.map Arrival.contrib).map Prod.fst := by
    intro m
    rw [List.map_map]
    rfl
  have hnd₂ : (l₂.map Arrival.account_email).Nodup := by
    rw [hkeys] at hnd ⊢
    exact ((hperm.map Prod.fst).nodup_iff).mp hnd
  cases hl₁ : l₁ with
  | nil =>
    have : l₂.map Arrival.contrib = [] := by
      have := hperm.length_eq
      simp [hl₁] at this
      simpa using this.symm
    have hl₂ : l₂ = [] := by
      cases l₂ with
      | nil => rfl
      | cons y ys => simp at this
    rw [hl₂]
  | cons x xs =>
    have h₁ne : l₁ ≠ [] := by simp [hl₁]
    have h₂ne : l₂ ≠ [] := by
      intro hl₂
      rw [hl₁, hl₂] at hperm
      have := hperm.length_eq
      simp at this
    rw [← hl₁]
    rw [mergeAll_aggregated domain l₁ h₁ne, mergeAll_aggregated domain l₂ h₂ne,
      mergeAll_accounts_eq domain l₁ hnd, mergeAll_accounts_eq domain l₂ hnd₂]
    exact congrArg some (calculate_aggregated_metrics_perm hperm)

/-- Witness for C4: two distinct-account arrivals in both orders. -/
theorem save_domain_json_merge_commutative_witness :
    (mergeAll "x.com"
        [⟨"a@x", demoStatsA, 1⟩, ⟨"b@x", demoStatsB, 2⟩]).aggregated_metrics
      = (mergeAll "x.com"
        [⟨"b@x", demoStatsB, 5⟩, ⟨"a@x", demoStatsA, 7⟩]).aggregated_metrics :=
  save_domain_json_merge_commutative "x.com"
    [⟨"a@x", demoStatsA, 1⟩, ⟨"b@x", demoStatsB, 2⟩]
    [⟨"b@x", demoStatsB, 5⟩, ⟨"a@x", demoStatsA, 7⟩]
    (by decide) (by decide)

/-- The mutable columns of one `domain_stats` row, i.e. everything except
the SERIAL `id`.  `full_data` holds the serialized stats payload, modelled
by the value itself; `date` is the calendar day used in the UNIQUE key;
`created_at` is the revision marker bumped on every upsert. -/
structure Fields where
  account_email : String
  domain_name : String
  status : Option String
  verified : Bool
  added_date : Option String
  timestamp : Option String
  date : Nat
  delivered_count : Option Int
  delivered_percentage : Option String
  complaint_rate : Option ℚ
  complaint_percentage : Option String
  complaint_trend : Option String
  time_range : Option String
  insights_data : Option String
  full_data : Stats
  screenshot_path : Option String
  has_data : Bool
  created_at : Nat
deriving DecidableEq, Repr

/-- One persisted `domain_stats` row: a SERIAL id plus the columns. -/
structure Row where
  id : Nat
  val : Fields
deriving DecidableEq, Repr

/-- The UNIQUE key `(account_email, domain_name, date)` of a row. -/
def rowKey (r : Row) : String × String × Nat :=
  (r.val.account_email, r.val.domain_name, r.val.date)

/-- The column values computed from the VALUES clause of the INSERT in
`DatabaseManager.save_domain_stats`: `verified` defaults to false,
`has_data` defaults to true, `date` is the call-day and `created_at` the
call instant. -/
def mkFields (account_email : String) (stats : Stats)
    (current_date : Nat) (now : Nat) : Fields :=
  { account_email := account_email
    domain_name := stats.domain
    status := stats.status
    verified := stats.verified.getD false
    added_date := stats.added_date
    timestamp := stats.timestamp
    date := current_date
    delivered_count := stats.delivered_count
    delivered_percentage := stats.delivered_percentage
    complaint_rate := stats.complaint_rate
    complaint_percentage := stats.complaint_percentage
    complaint_trend := stats.complaint_trend
    time_range := stats.time_range
    insights_data := stats.insights_data
    full_data := stats
    screenshot_path := stats.screenshot_path
    has_data := stats.has_data.getD true
    created_at := now }

/-- The `INSERT ... ON CONFLICT (account_email, domain_name, date) DO
UPDATE SET <all columns>, created_at = CURRENT_TIMESTAMP` statement of
`save_domain_stats` against the `domain_stats` table: on conflict every
column except the id is replaced, otherwise a fresh row is appended. -/
def upsertRows (table : List Row) (account_email : String) (stats : Stats)
    (current_date : Nat) (now : Nat) : List Row :=
  if table.any (fun r => decide (rowKey r = (account_email, stats.domain, current_date))) then
    table.map (fun r =>
      if rowKey r = (account_email, stats.domain, current_date) then
        { r with val := mkFields account_email stats current_date now }
      else r)
  else
    table ++ [{ id := table.length + 1, val := mkFields account_email stats current_date now }]

/-- The `timestamp` column is NOT NULL, so an extraction record without a
timestamp makes the INSERT raise instead of storing a row; the statement
succeeds exactly when the timestamp is present. -/
def upsertDomainStats (table : List Row) (account_email : String)
    (stats : Stats) (current_date : Nat) (now : Nat) : Option (List Row) :=
  if stats.timestamp.isNone then none
  else some (upsertRows table account_email stats current_date now)

/-- One call to `DatabaseManager.save_domain_stats`, identified by its
arguments and the call-time day and instant. -/
structure UpsertCall where
  account_email : String
  stats : Stats
  current_date : Nat
  now : Nat
deriving DecidableEq, Repr

/-- The UNIQUE key targeted by an upsert call. -/
def callKey (u : UpsertCall) : String × String × Nat :=
  (u.account_email, u.stats.domain, u.current_date)

/-- A sequence of upsert calls applied to the table; a call that violates
the NOT NULL constraint leaves the table unchanged (the method catches
the error and reports failure). -/
def applyUpserts (table : List Row) (ups : List UpsertCall) : List Row :=
  ups.foldl
    (fun t u =>
      (upsertDomainStats t u.account_email u.stats u.current_date u.now).getD t)
    table

/-- The most recent call in the sequence targeting key `k`. -/
def lastUpsertFor (k : String × String × Nat) : List UpsertCall → Option UpsertCall
  | [] => none
  | u :: rest =>
    match lastUpsertFor k rest with
    | some v => some v
    | none => if callKey u = k then some u else none

/-- The invariant enforced by `UNIQUE(account_email, domain_name, date)`:
pairwise distinct keys. -/
def uniqueKeys (table : List Row) : Prop :=
  table.Pairwise (fun r s => rowKey r ≠ rowKey s)

lemma rowKey_update_of_key (a : String) (st : Stats) (d t : Nat) (r : Row) :
    rowKey (if rowKey r = (a, st.domain, d) then
        { r with val := mkFields a st d t } else r) = rowKey r := by
  by_cases h : rowKey r = (a, st.domain, d)
  · rw [if_pos h, h]
    rfl
  · rw [if_neg h]

lemma filter_key_eq_singleton {table : List Row} {k : String × String × Nat}
    {r₀ : Row} (hu : uniqueKeys table) (hmem : r₀ ∈ table)
    (hkey : rowKey r₀ = k) :
    table.filter (fun r => decide (rowKey r = k)) = [r₀] := by
  induction table with
  | nil => exact absurd hmem (List.not_mem_nil r₀)
  | cons x xs ih =>
    have hpw := List.pairwise_cons.mp hu
    rcases List.mem_cons.mp hmem with hx | hx
    · subst hx
      rw [List.filter_cons, if_pos (by simpa using hkey)]
      have : xs.filter (fun r => decide (rowKey r = k)) = [] := by
        rw [List.filter_eq_nil_iff]
        intro s hs
        simp only [decide_eq_true_eq]
        intro hsk
        exact hpw.1 s hs (hkey.trans hsk.symm)
      rw [this]
    · have hxk : ¬(rowKey x = k) := by
        intro hxk
        exact hpw.1 r₀ hx (hxk.trans hkey.symm)
      rw [List.filter_cons, if_neg (by simpa using hxk)]
      exact ih hpw.2 hx

lemma upsertRows_filter_same {table : List Row} (hu : uniqueKeys table)
    (a : String) (st : Stats) (d t : Nat) :
    ((upsertRows table a st d t).filter
        (fun r => decide (rowKey r = (a, st.domain, d)))).map Row.val
      = [mkFields a st d t] := by
  unfold upsertRows
  split
  · rename_i hany
    rcases List.any_eq_true.mp hany with ⟨r₀, hr₀, hr₀k⟩
    rw [decide_eq_true_eq] at hr₀k
    rw [List.filter_map]
    have hpt : ∀ r ∈ table,
        ((fun r => decide (rowKey r = (a, st.domain, d))) ∘
          (fun r => if rowKey r = (a, st.domain, d) then
            { r with val := mkFields a st d t } else r)) r
        = (fun r => decide (rowKey r = (a, st.domain, d))) r := by
      intro r _
      simp only [Function.comp_apply]
      rw [rowKey_update_of_key a st d t r]
    rw [List.filter_congr hpt, filter_key_eq_singleton hu hr₀ hr₀k]
    simp only [List.map_cons, List.map_nil, List.map_map, Function.comp_apply]
    rw [if_pos hr₀k]
  · rename_i hany
    have hall : ∀ r ∈ table, ¬(rowKey r = (a, st.domain, d)) := by
      simpa [List.any_eq_true] using hany
    rw [List.filter_append, List.filter_eq_nil_iff.mpr ?_, List.nil_append]
    · rw [List.filter_cons]
      simp [rowKey, mkFields]
    · intro r hr
      simpa using hall r hr

lemma upsertRows_filter_other {table : List Row}
    (a : String) (st : Stats) (d t : Nat)
    {k : String × String × Nat} (hk : k ≠ (a, st.domain, d)) :
    (upsertRows table a st d t).filter (fun r => decide (rowKey r = k))
      = table.filter (fun r => decide (rowKey r = k)) := by
  unfold upsertRows
  split
  · rw [List.filter_map]
    have hpt : ∀ r ∈ table,
        ((fun r => decide (rowKey r = k)) ∘
          (fun r => if rowKey r = (a, st.domain, d) then
            { r with val := mkFields a st d t } else r)) r
        = (fun r => decide (rowKey r = k)) r := by
      intro r _
      simp only [Function.comp_apply]
      rw [rowKey_update_of_key a st d t r]
    rw [List.filter_congr hpt]
    rw [List.map_congr_left ?_, List.map_id]
    intro r hr
    rcases List.mem_filter.mp hr with ⟨_, hrk⟩
    rw [decide_eq_true_eq] at hrk
    rw [if_neg (by rw [hrk]; exact hk)]
    rfl
  · rw [List.filter_append, List.filter_cons]
    rw [if_neg ?_, List.filter_nil, List.append_nil]
    simp only [decide_eq_true_eq]
    show ¬(rowKey { id := table.length + 1, val := mkFields a st d t } = k)
    intro hkey
    exact hk (hkey ▸ rfl)

lemma upsertRows_uniqueKeys {table : List Row} (hu : uniqueKeys table)
    (a : String) (st : Stats) (d t : Nat) :
    uniqueKeys (upsertRows table a st d t) := by
  unfold upsertRows uniqueKeys
  split
  · rw [List.pairwise_map]
    refine hu.imp ?_
    intro r s hrs
    rw [rowKey_update_of_key a st d t r, rowKey_update_of_key a st d t s]
    exact hrs
  · rename_i hany
    have hall : ∀ r ∈ table, ¬(rowKey r = (a, st.domain, d)) := by
      simpa [List.any_eq_true] using hany
    rw [List.pairwise_append]
    refine ⟨hu, List.pairwise_singleton _ _, ?_⟩
    intro r hr s hs
    rw [List.mem_singleton.mp hs]
    exact hall r hr

lemma applyUpserts_uniqueKeys (ups : List UpsertCall) :
    ∀ table : List Row, uniqueKeys table → uniqueKeys (applyUpserts table ups) := by
  induction ups with
  | nil => intro table hu; exact hu
  | cons u rest ih =>
    intro table hu
    show uniqueKeys (applyUpserts
      ((upsertDomainStats table u.account_email u.stats u.current_date u.now).getD table) rest)
    apply ih
    unfold upsertDomainStats
    split
    · exact hu
    · exact upsertRows_uniqueKeys hu _ _ _ _

lemma applyUpserts_filter (ups : List UpsertCall) :
    ∀ table : List Row, uniqueKeys table →
      (∀ v ∈ ups, (v.stats.timestamp).isSome) →
      ∀ k : String × String × Nat,
      ((applyUpserts table ups).filter (fun r => decide (rowKey r = k))).map Row.val
        = (match lastUpsertFor k ups with
          | some u => [mkFields u.account_email u.stats u.current_date u.now]
          | none => (table.filter (fun r => decide (rowKey r = k))).map Row.val) := by
  induction ups with
  | nil => intro table _ _ k; rfl
  | cons u rest ih =>
    intro table hu hvalid k
    have hus : (u.stats.timestamp).isSome := hvalid u (by simp)
    have hstep : upsertDomainStats table u.account_email u.stats u.current_date u.now
        = some (upsertRows table u.account_email u.stats u.current_date u.now) := by
      unfold upsertDomainStats
      rw [if_neg (by simp [Option.isNone_iff_eq_none]; exact Option.isSome_iff_ne_none.mp hus)]
    have happ : applyUpserts table (u :: rest)
        = applyUpserts (upsertRows table u.account_email u.stats u.current_date u.now) rest := by
      show applyUpserts ((upsertDomainStats table u.account_email u.stats u.current_date u.now).getD table) rest = _
      rw [hstep]
      rfl
    rw [happ, ih _ (upsertRows_uniqueKeys hu _ _ _ _) (fun v hv => hvalid v (by simp [hv])) k]
    cases hrest : lastUpsertFor k rest with
    | some v =>
      have hcons : lastUpsertFor k (u :: rest) = some v := by
        show (match lastUpsertFor k rest with
          | some w => some w
          | none => if callKey u = k then some u else none) = some v
        rw [hrest]
      rw [hcons]
    | none =>
      by_cases hk : callKey u = k
      · have hcons : lastUpsertFor k (u :: rest) = some u := by
          show (match lastUpsertFor k rest with
            | some w => some w
            | none => if callKey u = k then some u else none) = some u
          rw [hrest, if_pos hk]
        rw [hcons]
        have hsame := upsertRows_filter_same hu u.account_email u.stats u.current_date u.now
        rw [← hk]
        exact hsame
      · have hcons : lastUpsertFor k (u :: rest) = none := by
          show (match lastUpsertFor k rest with
            | some w => some w
            | none => if callKey u = k then some u else none) = none
          rw [hrest, if_neg hk]
        rw [hcons]
        exact congrArg (List.map Row.val)
          (upsertRows_filter_other _ _ _ _ (fun hkk => hk (hkk ▸ rfl)))

/-- C1: for every valid key, any sequence of `save_domain_stats` upserts
starting from the freshly created table leaves the table with pairwise
distinct keys and exactly one row for that key, whose columns equal the
values computed from the most recent upsert for that key in the sequence
(last-write-wins, `created_at` bumped to the call time, no duplicate rows
and no retained history). -/
theorem save_domain_stats_last_write_wins
    (ups : List UpsertCall) (k : String × String × Nat) (u : UpsertCall)
    (hvalid : ∀ v ∈ ups, (v.stats.timestamp).isSome)
    (hlast : lastUpsertFor k ups = some u) :
    uniqueKeys (applyUpserts [] ups) ∧
    ((applyUpserts [] ups).filter (fun r => decide (rowKey r = k))).map Row.val
      = [mkFields u.account_email u.stats u.current_date u.now] := by
  refine ⟨applyUpserts_uniqueKeys ups [] List.Pairwise.nil, ?_⟩
  rw [applyUpserts_filter ups [] List.Pairwise.nil hvalid k, hlast]

/-- Witness for C1: two same-key upserts on day 3; the surviving row holds
the second delivered_count. -/
theorem save_domain_stats_last_write_wins_witness :
    uniqueKeys (applyUpserts []
      [⟨"a@x", demoStatsA, 3, 10⟩, ⟨"a@x", demoStatsB, 3, 11⟩]) ∧
    ((applyUpserts []
        [⟨"a@x", demoStatsA, 3, 10⟩, ⟨"a@x", demoStatsB, 3, 11⟩]).filter
          (fun r => decide (rowKey r = ("a@x", "x.com", 3)))).map Row.val
      = [mkFields "a@x" demoStatsB 3 11] :=
  save_domain_stats_last_write_wins
    [⟨"a@x", demoStatsA, 3, 10⟩, ⟨"a@x", demoStatsB, 3, 11⟩]
    ("a@x", "x.com", 3) ⟨"a@x", demoStatsB, 3, 11⟩
    (by decide) (by decide)

/-- Lexicographic comparison of character lists by code point, the order
a TEXT column is compared with under `MAX` and `ORDER BY`. -/
def charListLe : List Char → List Char → Bool
  | [], _ => true
  | _ :: _, [] => false
  | c :: cs, d :: ds =>
    if c.toNat < d.toNat then true
    else if d.toNat < c.toNat then false
    else charListLe cs ds

/-- Lexicographic order on TEXT values. -/
def strLe (s t : String) : Bool := charListLe s.data t.data

/-- The `timestamp` TEXT column of a row; the column is NOT NULL, so the
default is never hit for persisted rows.  Text timestamps are compared
lexicographically, which is what `MAX(timestamp)` does on a TEXT column. -/
def tsOf (r : Row) : String := r.val.timestamp.getD ""

/-- The rows eligible under the optional `account_email` filter of
`get_all_domains_stats` (the WHERE clause applied both in the grouped
subquery and on `ds1`). -/
def eligibleRows (table : List Row) (account_email : Option String) : List Row :=
  match account_email with
  | some a => table.filter (fun r => decide (r.val.account_email = a))
  | none => table

/-- Embedding of `DatabaseManager.get_all_domains_stats` (source lines
433-470): the self-join keeps every eligible row whose timestamp equals
the per-domain maximum timestamp among eligible rows, then orders by
timestamp descending and applies LIMIT. -/
def get_all_domains_stats (table : List Row) (limit : Nat)
    (account_email : Option String) : List Row :=
  let eligible := eligibleRows table account_email
  let latest := eligible.filter (fun r =>
    eligible.all (fun s =>
      decide (s.val.domain_name = r.val.domain_name → strLe (tsOf s) (tsOf r) = true)))
  (latest.insertionSort (fun r s => strLe (tsOf s) (tsOf r) = true)).take limit

/-- C3 counterexample: two rows for the same entity from two accounts
with equal timestamps are BOTH returned by `get_all_domains_stats` — the
tie at the per-domain maximum breaks the one-row-per-entity guarantee. -/
theorem get_all_domains_stats_duplicate_entity :
    ((get_all_domains_stats
      [⟨1, mkFields "a@x" demoStatsA 3 0⟩,
       ⟨2, mkFields "b@x" { demoStatsA with delivered_count := some 200 } 3 0⟩]
      100 none).countP (fun r => decide (r.val.domain_name = "x.com"))) = 2 := by
  decide

lemma charListLe_refl (a : List Char) : charListLe a a = true := by
  induction a with
  | nil => rfl
  | cons c cs ih => simp [charListLe, Nat.lt_irrefl, ih]

lemma charListLe_total (a : List Char) :
    ∀ b : List Char, charListLe a b = true ∨ charListLe b a = true := by
  induction a with
  | nil => intro b; left; rfl
  | cons c cs ih =>
    intro b
    cases b with
    | nil => right; rfl
    | cons d ds =>
      rcases Nat.lt_trichotomy c.toNat d.toNat with h | h | h
      · left; simp [charListLe, h]
      · rcases ih ds with hcd | hdc
        · left; simp [charListLe, h, Nat.lt_irrefl, hcd]
        · right; simp [charListLe, h, Nat.lt_irrefl, hdc]
      · right; simp [charListLe, h]

lemma charListLe_trans (a : List Char) :
    ∀ b c : List Char, charListLe a b = true → charListLe b c = true →
      charListLe a c = true := by
  induction a with
  | nil => intro b c _ _; rfl
  | cons x xs ih =>
    intro b c h1 h2
    cases b with
    | nil => simp [charListLe] at h1
    | cons y ys =>
      cases c with
      | nil => simp [charListLe] at h2
      | cons z zs =>
        simp only [charListLe] at h1 h2 ⊢
        rcases Nat.lt_trichotomy x.toNat y.toNat with hxy | hxy | hxy <;>
          rcases Nat.lt_trichotomy y.toNat z.toNat with hyz | hyz | hyz
        · simp [Nat.lt_trans hxy hyz]
        · simp [hyz ▸ hxy]
        · simp [Nat.lt_asymm hyz, hyz] at h2
        · simp [hxy, hyz]
        · simp only [hxy, hyz, Nat.lt_irrefl, if_false] at h1 h2 ⊢
          exact ih ys zs h1 h2
        · simp [Nat.lt_asymm hyz, hyz] at h2
        · simp [Nat.lt_asymm hxy, hxy] at h1
        · simp [Nat.lt_asymm hxy, hxy] at h1
        · simp [Nat.lt_asymm hxy, hxy] at h1

lemma strLe_refl (s : String) : strLe s s = true := charListLe_refl s.data

lemma strLe_total (s t : String) : strLe s t = true ∨ strLe t s = true :=
  charListLe_total s.data t.data

lemma strLe_trans {s t u : String} (h1 : strLe s t = true)
    (h2 : strLe t u = true) : strLe s u = true :=
  charListLe_trans s.data t.data u.data h1 h2

lemma exists_max_ts (l : List Row) (h : l ≠ []) :
    ∃ r ∈ l, ∀ s ∈ l, strLe (tsOf s) (tsOf r) = true := by
  induction l with
  | nil => exact absurd rfl h
  | cons x xs ih =>
    by_cases hxs : xs = []
    · subst hxs
      refine ⟨x, by simp, ?_⟩
      intro s hs
      rw [List.mem_singleton.mp hs]
      exact strLe_refl _
    · rcases ih hxs with ⟨r, hr, hmax⟩
      rcases strLe_total (tsOf x) (tsOf r) with hxr | hrx
      · refine ⟨r, by simp [hr], ?_⟩
        intro s hs
        rcases List.mem_cons.mp hs with hsx | hsx
        · rw [hsx]; exact hxr
        · exact hmax s hsx
      · refine ⟨x, by simp, ?_⟩
        intro s hs
        rcases List.mem_cons.mp hs with hsx | hsx
        · rw [hsx]; exact strLe_refl _
        · exact strLe_trans (hmax s hsx) hrx

lemma filter_eq_singleton_of_unique {α : Type} {l : List α} {p : α → Bool}
    {r : α} (hnd : l.Nodup) (hr : r ∈ l) (hpr : p r = true)
    (huniq : ∀ x ∈ l, p x = true → x = r) : l.filter p = [r] := by
  induction l with
  | nil => exact absurd hr (List.not_mem_nil r)
  | cons x xs ih =>
    have hnd' := List.nodup_cons.mp hnd
    rcases List.mem_cons.mp hr with hrx | hrx
    · subst hrx
      rw [List.filter_cons, if_pos hpr]
      have : xs.filter p = [] := by
        rw [List.filter_eq_nil_iff]
        intro s hs hps
        exact hnd'.1 (huniq s (by simp [hs]) hps ▸ hs)
      rw [this]
    · have hpx : ¬(p x = true) := by
        intro hpx
        have := huniq x (by simp) hpx
        exact hnd'.1 (this ▸ hrx)
      rw [List.filter_cons, if_neg hpx]
      exact ih hnd'.2 hrx (fun s hs hps => huniq s (by simp [hs]) hps)

/-- C3 amended: every row returned by `get_all_domains_stats` carries the
maximum timestamp among eligible rows of its entity, and — provided the
maximal timestamp of each entity is attained by a single row (no ties)
and the limit covers the table — the result has exactly one row per
entity appearing among the eligible rows.  Without the no-tie hypothesis
the original claim fails (see the counterexample). -/
theorem get_all_domains_stats_latest_per_entity
    (table : List Row) (limit : Nat) (acct : Option String)
    (hnd : table.Nodup)
    (hlim : table.length ≤ limit)
    (hties : ∀ r ∈ eligibleRows table acct, ∀ s ∈ eligibleRows table acct,
      r.val.domain_name = s.val.domain_name →
      strLe (tsOf r) (tsOf s) = true → strLe (tsOf s) (tsOf r) = true → r = s) :
    (∀ r ∈ get_all_domains_stats table limit acct,
      r ∈ eligibleRows table acct ∧
      ∀ s ∈ eligibleRows table acct,
        s.val.domain_name = r.val.domain_name → strLe (tsOf s) (tsOf r) = true) ∧
    (∀ d : String, (∃ r ∈ eligibleRows table acct, r.val.domain_name = d) →
      (get_all_domains_stats table limit acct).countP
        (fun r => decide (r.val.domain_name = d)) = 1) := by
  have helig_len : (eligibleRows table acct).length ≤ table.length := by
    cases acct with
    | none => exact le_refl _
    | some a => exact List.length_filter_le _ _
  have helig_nodup : (eligibleRows table acct).Nodup := by
    cases acct with
    | none => exact hnd
    | some a => exact hnd.filter _
  have hresult : get_all_domains_stats table limit acct
      = ((eligibleRows table acct).filter (fun r =>
          (eligibleRows table acct).all (fun s =>
            decide (s.val.domain_name = r.val.domain_name →
              strLe (tsOf s) (tsOf r) = true)))).insertionSort
          (fun r s => strLe (tsOf s) (tsOf r) = true) := by
    unfold get_all_domains_stats
    apply List.take_of_length_le
    rw [(List.perm_insertionSort _ _).length_eq]
    exact le_trans (List.length_filter_le _ _) (le_trans helig_len hlim)
  have hperm : (get_all_domains_stats table limit acct).Perm
      ((eligibleRows table acct).filter (fun r =>
        (eligibleRows table acct).all (fun s =>
          decide (s.val.domain_name = r.val.domain_name →
            strLe (tsOf s) (tsOf r) = true)))) := by
    rw [hresult]
    exact List.perm_insertionSort _ _
  constructor
  · intro r hrmem
    have hr := hperm.mem_iff.mp hrmem
    rcases List.mem_filter.mp hr with ⟨hre, hrall⟩
    refine ⟨hre, ?_⟩
    intro s hs hdom
    exact of_decide_eq_true (List.all_eq_true.mp hrall s hs) hdom
  · rintro d ⟨r₀, hr₀, hd₀⟩
    have hg₀ : r₀ ∈ (eligibleRows table acct).filter
        (fun s => decide (s.val.domain_name = d)) :=
      List.mem_filter.mpr ⟨hr₀, decide_eq_true hd₀⟩
    obtain ⟨rm, hrmg, hrmax⟩ := exists_max_ts _ (List.ne_nil_of_mem hg₀)
    rcases List.mem_filter.mp hrmg with ⟨hrme, hrmd⟩
    have hrmdom : rm.val.domain_name = d := of_decide_eq_true hrmd
    have hrm_latest : rm ∈ (eligibleRows table acct).filter (fun r =>
        (eligibleRows table acct).all (fun s =>
          decide (s.val.domain_name = r.val.domain_name →
            strLe (tsOf s) (tsOf r) = true))) := by
      refine List.mem_filter.mpr ⟨hrme, List.all_eq_true.mpr ?_⟩
      intro s hs
      apply decide_eq_true
      intro hsd
      exact hrmax s (List.mem_filter.mpr
        ⟨hs, decide_eq_true (hsd.trans hrmdom)⟩)
    rw [hperm.countP_eq, List.countP_eq_length_filter]
    rw [filter_eq_singleton_of_unique (helig_nodup.filter _) hrm_latest
      (decide_eq_true hrmdom) ?_]
    · rfl
    · intro x hx hxd
      have hxdom : x.val.domain_name = d := of_decide_eq_true hxd
      rcases List.mem_filter.mp hx with ⟨hxe, hxall⟩
      have h₁ : strLe (tsOf x) (tsOf rm) = true :=
        hrmax x (List.mem_filter.mpr ⟨hxe, decide_eq_true hxdom⟩)
      have h₂ : strLe (tsOf rm) (tsOf x) = true :=
        of_decide_eq_true (List.all_eq_true.mp hxall rm hrme)
          (hrmdom.trans hxdom.symm)
      exact hties x hxe rm hrme (hxdom.trans hrmdom.symm) h₁ h₂

/-- Witness for the amended C3 at a concrete two-entity table. -/
theorem get_all_domains_stats_latest_per_entity_witness :
    ((get_all_domains_stats
        [⟨1, mkFields "a@x" demoStatsA 3 0⟩, ⟨2, mkFields "a@x" demoStatsB 4 1⟩]
        100 none).countP (fun r => decide (r.val.domain_name = "x.com"))) = 1 :=
  (get_all_domains_stats_latest_per_entity
      [⟨1, mkFields "a@x" demoStatsA 3 0⟩, ⟨2, mkFields "a@x" demoStatsB 4 1⟩]
      100 none (by decide) (by decide) (by decide)).2
    "x.com" ⟨⟨1, mkFields "a@x" demoStatsA 3 0⟩, by decide, by decide⟩

/-- One atomic step of a worker executing `save_domain_json` on the shared
per-entity JSON file: the read (`json.load` of the file, or the default
empty document when the file is absent) and the write (`json.dump` of the
document computed from the earlier read).  The source takes no lock
between the two. -/
inductive MergeEvent where
  | readA
  | writeA
  | readB
  | writeB
deriving DecidableEq, Repr

/-- The shared JSON file plus the local `existing_data` each of two
workers has read (none before its read happened). -/
structure MergeSystem where
  file : Option Document
  localA : Option Document
  localB : Option Document
deriving Repr

/-- Loading the per-entity file: parse it if present, else start from the
defaulted empty document (`existing_data = {}` plus key defaults). -/
def loadDoc (domain : String) (file : Option Document) : Document :=
  match file with
  | some doc => doc
  | none => emptyDocument domain

/-- Interleaving semantics of two concurrent `save_domain_json` calls for
the same entity by workers A and B: each read snapshots the file, each
write stores the document computed from that worker's snapshot. -/
def mergeStep (domain emailA : String) (statsA : Stats) (emailB : String)
    (statsB : Stats) (now : Nat) (s : MergeSystem) : MergeEvent → MergeSystem
  | .readA => { s with localA := some (loadDoc domain s.file) }
  | .writeA =>
      { s with file := some (save_domain_json (loadDoc domain s.localA) emailA statsA now) }
  | .readB => { s with localB := some (loadDoc domain s.file) }
  | .writeB =>
      { s with file := some (save_domain_json (loadDoc domain s.localB) emailB statsB now) }

/-- Run a schedule of read/write events starting from an absent file. -/
def runMerges (domain emailA : String) (statsA : Stats) (emailB : String)
    (statsB : Stats) (now : Nat) (events : List MergeEvent) : MergeSystem :=
  events.foldl (mergeStep domain emailA statsA emailB statsB now)
    { file := none, localA := none, localB := none }

/-- C5: the interleaving read-A, read-B, write-A, write-B of two
concurrent merges for the same entity silently drops account A
(lost update), whereas the serialized order keeps both contributions —
`save_domain_json` performs an unserialized read-modify-write, so the
required per-entity serialization is absent from the code. -/
theorem save_domain_json_lost_update :
    ((runMerges "x.com" "a@x" demoStatsA "b@x" demoStatsB 0
        [.readA, .readB, .writeA, .writeB]).file.map
      (fun doc => doc.accounts.map Prod.fst)) = some ["b@x"] ∧
    ((runMerges "x.com" "a@x" demoStatsA "b@x" demoStatsB 0
        [.readA, .writeA, .readB, .writeB]).file.map
      (fun doc => doc.accounts.map Prod.fst)) = some ["a@x", "b@x"] := by
  constructor <;> rfl

/-- Outcome of one `run_hourly_scrape_enhanced` cycle inside
`start_persistent_scraping`: a successful batch, an unsuccessful batch
(falsy return), or an exception reaching the `except` handler. -/
inductive CycleOutcome where
  | success
  | failure
  | error
deriving DecidableEq, Repr

/-- `max_consecutive_failures = 5` from source line 1376. -/
def max_consecutive_failures : Nat := 5

/-- Update of `consecutive_failures` by one loop iteration: reset to 0 on
success, incremented on an unsuccessful cycle or an exception. -/
def loopCf (cf : Nat) : CycleOutcome → Nat
  | .success => 0
  | .failure => cf + 1
  | .error => cf + 1

/-- The sleep scheduled after an iteration, as a function of the updated
failure count: a full hour after success, `min(300 * failures, 1800)`
after a failure, and the same after an exception unless the threshold was
reached, in which case the handler breaks out immediately (no sleep). -/
def loopDelay (cf : Nat) : CycleOutcome → Nat
  | .success => 3600
  | .failure => min (300 * cf) 1800
  | .error => if max_consecutive_failures ≤ cf then 0 else min (300 * cf) 1800

/-- The guard of `while self.is_running and consecutive_failures <
max_consecutive_failures`: the loop exits when cancellation was requested
or the failure threshold is reached. -/
def loopExits (running : Bool) (cf : Nat) : Bool :=
  !running || decide (max_consecutive_failures ≤ cf)

/-- Why the cycle loop terminated. -/
inductive TermReason where
  | cancelled
  | failures
deriving DecidableEq, Repr

/-- The cycle loop of `start_persistent_scraping` (source lines
1374-1424) over a trace of per-iteration inputs: the `is_running` flag
observed at the guard and the cycle outcome.  Returns the final failure
count and the reason for exiting, or `none` when the trace ends with the
loop still live. -/
def runLoop (cf : Nat) : List (Bool × CycleOutcome) → Option (Nat × TermReason)
  | [] => none
  | (running, o) :: rest =>
    if loopExits running cf then
      some (cf, if running then TermReason.failures else TermReason.cancelled)
    else runLoop (loopCf cf o) rest

/-- C6: in the worker cycle loop, success resets `consecutive_failures`
to 0 and schedules the full hour; a failed cycle or an exception
increments the count and schedules `min(300 * failures, 1800)` — strictly
less than the hour; the guard exits exactly when cancellation was
requested or the count reached the threshold of 5; and every terminated
run ended for one of those two reasons. -/
theorem start_persistent_scraping_cycle_loop :
    (∀ cf : Nat, loopCf cf .success = 0 ∧
      loopDelay (loopCf cf .success) .success = 3600) ∧
    (∀ cf : Nat, loopCf cf .failure = cf + 1 ∧
      loopDelay (loopCf cf .failure) .failure = min (300 * (cf + 1)) 1800 ∧
      loopDelay (loopCf cf .failure) .failure < 3600) ∧
    (∀ cf : Nat, loopCf cf .error = cf + 1 ∧
      (cf + 1 < max_consecutive_failures →
        loopDelay (loopCf cf .error) .error = min (300 * (cf + 1)) 1800 ∧
        loopDelay (loopCf cf .error) .error < 3600)) ∧
    (∀ (running : Bool) (cf : Nat),
      loopExits running cf = true ↔
        (running = false ∨ max_consecutive_failures ≤ cf)) ∧
    (∀ (cf : Nat) (trace : List (Bool × CycleOutcome)) (res : Nat × TermReason),
      runLoop cf trace = some res →
        res.2 = TermReason.cancelled ∨
        (res.2 = TermReason.failures ∧ max_consecutive_failures ≤ res.1)) := by
  refine ⟨?_, ?_, ?_, ?_, ?_⟩
  · intro cf
    exact ⟨rfl, rfl⟩
  · intro cf
    refine ⟨rfl, rfl, ?_⟩
    calc loopDelay (loopCf cf .failure) .failure ≤ 1800 := min_le_right _ _
      _ < 3600 := by omega
  · intro cf
    refine ⟨rfl, ?_⟩
    intro hlt
    constructor
    · show (if max_consecutive_failures ≤ cf + 1 then 0
        else min (300 * (cf + 1)) 1800) = min (300 * (cf + 1)) 1800
      rw [if_neg (by omega)]
    · show (if max_consecutive_failures ≤ cf + 1 then 0
        else min (300 * (cf + 1)) 1800) < 3600
      rw [if_neg (by omega)]
      calc min (300 * (cf + 1)) 1800 ≤ 1800 := min_le_right _ _
        _ < 3600 := by omega
  · intro running cf
    cases running <;> simp [loopExits]
  · intro cf trace
    induction trace generalizing cf with
    | nil => intro res h; simp [runLoop] at h
    | cons x rest ih =>
      intro res h
      rcases x with ⟨running, o⟩
      rw [runLoop] at h
      by_cases hex : loopExits running cf = true
      · rw [if_pos hex] at h
        cases running with
        | false =>
          left
          rw [← Option.some_inj.mp h]
          rfl
        | true =>
          right
          have hth : max_consecutive_failures ≤ cf := by
            simpa [loopExits] using hex
          rw [← Option.some_inj.mp h]
          exact ⟨rfl, hth⟩
      · rw [if_neg hex] at h
        exact ih (loopCf cf o) res h

/-- Witness for C6: a cancelled run and a concrete failure backoff. -/
theorem start_persistent_scraping_cycle_loop_witness :
    ((0, TermReason.cancelled).2 = TermReason.cancelled ∨
      ((0, TermReason.cancelled).2 = TermReason.failures ∧
        max_consecutive_failures ≤ (0, TermReason.cancelled).1)) ∧
    loopDelay (loopCf 2 .failure) .failure = min (300 * 3) 1800 :=
  ⟨start_persistent_scraping_cycle_loop.2.2.2.2 0 [(false, .success)]
      (0, TermReason.cancelled) (by decide),
    (start_persistent_scraping_cycle_loop.2.1 2).2.1⟩

/-- The short checking interval of the hourly sleep: 300 seconds. -/
def short_interval : Nat := 300

/-- The hourly inter-cycle sleep (source lines 1390-1399): decomposed
into `3600 / 300` chunks of 300 seconds with the `is_running` flag
checked before every chunk. -/
def hourly_sleep_chunks : List Nat := List.replicate (3600 / 300) 300

/-- The failure-backoff sleep (source lines 1406-1408 and 1417-1419): one
single uninterrupted `time.sleep(min(300 * consecutive_failures, 1800))`
with no cancellation check inside. -/
def failure_backoff_chunks (cf : Nat) : List Nat := [min (300 * cf) 1800]

/-- The retry sleep between initial login attempts (source line 1365):
one uninterrupted `time.sleep(30)`. -/
def initial_login_retry_chunks : List Nat := [30]

/-- The retry sleep inside `guaranteed_login` (source lines 999, 1051,
1104, 1191, 1199): one uninterrupted `time.sleep(15)`. -/
def login_retry_chunks : List Nat := [15]

/-- The retry sleep between browser setup attempts (source line 793):
one uninterrupted `time.sleep((attempt + 1) * 15)`. -/
def browser_setup_retry_chunks (attempt : Nat) : List Nat := [(attempt + 1) * 15]

/-- Worst-case delay between a cancellation request arriving during a
sleep and the worker observing it: cancellation is noticed at the next
check, which happens only between chunks, so the worst case is the
longest uninterrupted chunk. -/
def cancelLatency (chunks : List Nat) : Nat := chunks.foldr max 0

/-- C7 counterexample: with two consecutive failures the backoff sleep is
a single 600-second chunk, so cancellation during it is observed only
after 600 seconds — not within one 300-second short-interval tick. -/
theorem cancellation_latency_counterexample :
    cancelLatency (failure_backoff_chunks 2) = 600 ∧
    ¬(cancelLatency (failure_backoff_chunks 2) ≤ short_interval) := by
  decide

/-- C7 amended: cancellation during the hourly inter-cycle sleep is
observed within one short-interval tick, but the failure-backoff sleep
and the connect/login retry sleeps are single uninterruptible chunks, so
cancellation during them waits the full sleep: the backoff latency equals
`min(300 * failures, 1800)` and exceeds one tick from two failures on,
and the login and browser-setup retry latencies equal their full
durations. -/
theorem cancellation_latency_amended :
    cancelLatency hourly_sleep_chunks ≤ short_interval ∧
    (∀ cf : Nat, cancelLatency (failure_backoff_chunks cf) = min (300 * cf) 1800) ∧
    (∀ cf : Nat, 2 ≤ cf →
      short_interval < cancelLatency (failure_backoff_chunks cf)) ∧
    cancelLatency initial_login_retry_chunks = 30 ∧
    cancelLatency login_retry_chunks = 15 ∧
    (∀ attempt : Nat,
      cancelLatency (browser_setup_retry_chunks attempt) = (attempt + 1) * 15) := by
  refine ⟨by decide, ?_, ?_, rfl, rfl, ?_⟩
  · intro cf
    show max (min (300 * cf) 1800) 0 = min (300 * cf) 1800
    exact Nat.max_zero _
  · intro cf hcf
    show short_interval < max (min (300 * cf) 1800) 0
    rw [Nat.max_zero]
    show (300 : Nat) < min (300 * cf) 1800
    omega
  · intro attempt
    show max ((attempt + 1) * 15) 0 = (attempt + 1) * 15
    exact Nat.max_zero _

/-- Witness for the amended C7 at five consecutive failures. -/
theorem cancellation_latency_amended_witness :
    short_interval < cancelLatency (failure_backoff_chunks 5) :=
  cancellation_latency_amended.2.2.1 5 (by decide)

/-- One `PersistentAccountScraper` as tracked by the manager: its account
and its `is_running` flag. -/
structure ScraperState where
  email : String
  is_running : Bool
deriving DecidableEq, Repr

/-- One worker thread as tracked by the manager: whether it is alive. -/
structure ThreadState where
  alive : Bool
deriving DecidableEq, Repr

/-- The mutable state of `SimultaneousPersistentManager`: its own
`is_running` flag and the tracked scrapers and threads. -/
structure ManagerState where
  is_running : Bool
  scrapers : List ScraperState
  threads : List ThreadState
deriving DecidableEq, Repr

/-- `SimultaneousPersistentManager.stop_all_accounts` (source lines
1536-1547): sets the manager flag to False, signals every scraper to stop
and joins the threads (which therefore terminate). -/
def stop_all_accounts (m : ManagerState) : ManagerState :=
  { m with
    is_running := false
    scrapers := m.scrapers.map (fun s => { s with is_running := false })
    threads := m.threads.map (fun _ => { alive := false }) }

/-- `SimultaneousPersistentManager.start_all_accounts_simultaneously`
(source lines 1442-1485): one fresh scraper and one live thread per
account; with no accounts it returns without spawning.  The manager
`is_running` flag is NOT touched anywhere in this method. -/
def start_all_accounts_simultaneously (m : ManagerState)
    (accounts : List String) : ManagerState :=
  if accounts = [] then m
  else
    { m with
      scrapers := accounts.map (fun a => { email := a, is_running := true })
      threads := accounts.map (fun _ => { alive := true }) }

/-- `SimultaneousPersistentManager.restart_all_scrapers` (source lines
1527-1534): stop everything, pause, clear the tracked lists, start all
accounts again. -/
def restart_all_scrapers (m : ManagerState) (accounts : List String) : ManagerState :=
  start_all_accounts_simultaneously
    { stop_all_accounts m with scrapers := [], threads := [] } accounts

/-- Number of alive threads, `sum(1 for thread in self.threads if
thread.is_alive())`. -/
def aliveThreads (m : ManagerState) : Nat := m.threads.countP (·.alive)

/-- The guard of the monitoring loop `while self.is_running` in
`keep_main_thread_alive` (source line 1492): monitoring proceeds only
while the manager flag is true. -/
def monitorGuard (m : ManagerState) : Bool := m.is_running

/-- The all-dead check of `keep_main_thread_alive` (source lines
1496-1503): on every 15th two-minute tick, if zero threads are alive and
at least one is tracked, the manager performs the coordinated
`restart_all_scrapers` instead of per-thread restarts. -/
def fleetRestartTriggered (m : ManagerState) (monitor_count : Nat) : Bool :=
  decide (monitor_count % 15 = 0) && decide (aliveThreads m = 0)
    && decide (0 < m.threads.length)

/-- C8: with the whole three-worker fleet dead at a 15th monitoring tick
the supervisor does trigger the coordinated full restart — but
`stop_all_accounts` inside `restart_all_scrapers` sets the manager
`is_running` flag to False and nothing ever resets it, so the monitoring
loop guard is false after the restart and monitoring does not continue:
the code contradicts the specified behaviour. -/
theorem keep_main_thread_alive_restart_halts_monitoring :
    (∀ (m : ManagerState) (accounts : List String),
      (restart_all_scrapers m accounts).is_running = false ∧
      monitorGuard (restart_all_scrapers m accounts) = false) ∧
    fleetRestartTriggered
      { is_running := true,
        scrapers := [⟨"a@x", true⟩, ⟨"b@x", true⟩, ⟨"c@x", true⟩],
        threads := [⟨false⟩, ⟨false⟩, ⟨false⟩] } 15 = true ∧
    (restart_all_scrapers
      { is_running := true,
        scrapers := [⟨"a@x", true⟩, ⟨"b@x", true⟩, ⟨"c@x", true⟩],
        threads := [⟨false⟩, ⟨false⟩, ⟨false⟩] }
      ["a@x", "b@x", "c@x"]).threads = [⟨true⟩, ⟨true⟩, ⟨true⟩] := by
  refine ⟨?_, by decide, by decide⟩
  intro m accounts
  unfold restart_all_scrapers start_all_accounts_simultaneously stop_all_accounts monitorGuard
  split <;> exact ⟨rfl, rfl⟩

/-- The availability flag of `DatabaseManager` (`self.db_available`). -/
structure DBState where
  db_available : Bool
deriving DecidableEq, Repr

/-- `DatabaseManager.get_connection` (source lines 168-200): returns no
connection when availability is already off; otherwise a connection when
some host is reachable, and no connection plus `db_available = False`
when every connection attempt fails. -/
def get_connection (s : DBState) (reachable : Bool) : Option Unit × DBState :=
  if s.db_available = false then (none, s)
  else if reachable then (some (), s)
  else (none, { db_available := false })

/-- `ORDER BY timestamp DESC LIMIT 1` of `get_latest_domain_stats`: a row
with maximal timestamp among the rows matching the domain and the
optional account filter. -/
def queryLatest (table : List Row) (domain : String)
    (account_email : Option String) : Option Row :=
  let matching := table.filter (fun r =>
    decide (r.val.domain_name = domain) &&
      match account_email with
      | some a => decide (r.val.account_email = a)
      | none => true)
  matching.foldl
    (fun best r =>
      match best with
      | none => some r
      | some b => if strLe (tsOf b) (tsOf r) then some r else some b)
    none

/-- The full `DatabaseManager.save_domain_stats` method (source lines
324-400): returns False immediately when availability is off; with an
unreachable store `get_cursor` yields the no-op DummyCursor, so the
method executes nothing and still returns True while `get_connection` has
turned availability off; with a reachable store it runs the upsert
(which raises on a NULL `timestamp`, caught as False with availability
turned off). -/
def save_domain_stats (s : DBState) (table : List Row)
    (account_email : String) (stats : Stats) (current_date now : Nat)
    (reachable : Bool) : Bool × DBState × List Row :=
  if s.db_available = false then (false, s, table)
  else
    match get_connection s reachable with
    | (none, s₁) => (true, s₁, table)
    | (some _, s₁) =>
      match upsertDomainStats table account_email stats current_date now with
      | none => (false, { db_available := false }, table)
      | some table₁ => (true, s₁, table₁)

/-- The full `DatabaseManager.get_latest_domain_stats` method (source
lines 402-431): None when availability is off; with an unreachable store
the DummyCursor fetch returns None; otherwise the latest matching row. -/
def get_latest_domain_stats (s : DBState) (table : List Row)
    (domain : String) (account_email : Option String) (reachable : Bool) :
    Option Row × DBState :=
  if s.db_available = false then (none, s)
  else
    match get_connection s reachable with
    | (none, s₁) => (none, s₁)
    | (some _, s₁) => (queryLatest table domain account_email, s₁)

/-- The full `DatabaseManager.get_all_domains_stats` method (source lines
433-470): empty when availability is off; with an unreachable store the
DummyCursor fetchall returns the empty list; otherwise the
latest-per-domain query result. -/
def get_all_domains_stats_db (s : DBState) (table : List Row)
    (limit : Nat) (account_email : Option String) (reachable : Bool) :
    List Row × DBState :=
  if s.db_available = false then ([], s)
  else
    match get_connection s reachable with
    | (none, s₁) => ([], s₁)
    | (some _, s₁) => (get_all_domains_stats table limit account_email, s₁)

/-- C9 counterexample: the first `save_domain_stats` call that finds the
store unreachable returns True, not the failure the claim requires — the
DummyCursor silently absorbs the INSERT and the method reports success
while persisting nothing. -/
theorem save_domain_stats_unreachable_returns_true :
    (save_domain_stats ⟨true⟩ [] "a@x" demoStatsA 3 0 false).1 = true := by
  decide

/-- C9 amended: with the store unreachable no operation raises (all are
total functions returning values): reads degrade to None and the empty
list, the table is never modified, availability is recorded as off — but
the upsert returns True on the very first call that discovers
unreachability (it reports False only once `db_available` is already
off).  With the store reachable and availability on, the method performs
the real `ON CONFLICT` upsert. -/
theorem persistence_degrades_when_unreachable
    (s : DBState) (table : List Row) (account_email : String)
    (stats : Stats) (current_date now limit : Nat)
    (domain : String) (acct : Option String) :
    (get_latest_domain_stats s table domain acct false).1 = none ∧
    (get_all_domains_stats_db s table limit acct false).1 = [] ∧
    (save_domain_stats s table account_email stats current_date now false).1
      = s.db_available ∧
    (save_domain_stats s table account_email stats current_date now false).2.2
      = table ∧
    (save_domain_stats s table account_email stats current_date now false).2.1.db_available
      = false ∧
    (s.db_available = true → stats.timestamp.isSome = true →
      (save_domain_stats s table account_email stats current_date now true).1 = true ∧
      (save_domain_stats s table account_email stats current_date now true).2.2
        = upsertRows table account_email stats current_date now) := by
  rcases s with ⟨avail⟩
  cases avail with
  | false =>
    refine ⟨rfl, rfl, rfl, rfl, rfl, ?_⟩
    intro h
    exact absurd h (by decide)
  | true =>
    refine ⟨rfl, rfl, rfl, rfl, rfl, ?_⟩
    intro _ hts
    have hnn : stats.timestamp.isNone = false := by
      cases hv : stats.timestamp with
      | none => rw [hv] at hts; exact absurd hts (by decide)
      | some v => rfl
    constructor
    · show (match upsertDomainStats table account_email stats current_date now with
        | none => (false, ({ db_available := false } : DBState), table)
        | some table₁ => (true, ({ db_available := true } : DBState), table₁)).1 = true
      unfold upsertDomainStats
      rw [if_neg (by rw [hnn]; exact Bool.false_ne_true)]
    · show (match upsertDomainStats table account_email stats current_date now with
        | none => (false, ({ db_available := false } : DBState), table)
        | some table₁ => (true, ({ db_available := true } : DBState), table₁)).2.2
        = upsertRows table account_email stats current_date now
      unfold upsertDomainStats
      rw [if_neg (by rw [hnn]; exact Bool.false_ne_true)]

/-- Witness for the amended C9 at a concrete call. -/
theorem persistence_degrades_when_unreachable_witness :
    (save_domain_stats ⟨true⟩ [] "a@x" demoStatsA 3 0 true).1 = true ∧
    (save_domain_stats ⟨true⟩ [] "a@x" demoStatsA 3 0 true).2.2
      = upsertRows [] "a@x" demoStatsA 3 0 :=
  (persistence_degrades_when_unreachable ⟨true⟩ [] "a@x" demoStatsA 3 0 100
    "x.com" none).2.2.2.2.2 rfl (by decide)

/-- One `scraping_sessions` audit row. -/
structure SessionRecord where
  account_email : String
  session_start : String
  session_end : Option String
  domains_processed : Nat
  total_domains : Nat
  status : String
deriving DecidableEq, Repr

/-- One `scraping_accounts` row. -/
structure AccountRecord where
  email : String
  name : Option String
  last_used : Option Nat
  total_sessions : Nat
  is_active : Bool
deriving DecidableEq, Repr

/-- One `api_keys` row. -/
structure ApiKeyRecord where
  api_key : String
  name : Option String
  is_active : Bool
deriving DecidableEq, Repr

/-- The four tables managed by `DatabaseManager.init_database`. -/
structure Database where
  domain_stats : List Row
  scraping_sessions : List SessionRecord
  scraping_accounts : List AccountRecord
  api_keys : List ApiKeyRecord
deriving DecidableEq, Repr

/-- Embedding of `DatabaseManager.init_database` (source lines 229-313),
called by `main` at every startup: when the store is available it issues
`DROP TABLE IF EXISTS ... CASCADE` for `domain_stats`,
`scraping_sessions`, `scraping_accounts` and `api_keys`, recreates all
four empty, and inserts the sample API key; when the store is unavailable
it leaves everything untouched. -/
def init_database (available : Bool) (db : Database) : Database :=
  if available then
    { domain_stats := []
      scraping_sessions := []
      scraping_accounts := []
      api_keys := [{ api_key := "test-api-key-12345",
                     name := some "Default API Key", is_active := true }] }
  else db

/-- C10: on an available store, `init_database` erases every previously
persisted stat row and audit record regardless of the prior contents —
durable state does not survive a restart of the program, since `main`
runs `init_database` at startup. -/
theorem init_database_drops_all_tables (db : Database) :
    (init_database true db).domain_stats = [] ∧
    (init_database true db).scraping_sessions = [] ∧
    (init_database true db).scraping_accounts = [] ∧
    (init_database true db).api_keys
      = [{ api_key := "test-api-key-12345",
           name := some "Default API Key", is_active := true }] := by
  refine ⟨rfl, rfl, rfl, rfl⟩
